import Mathlib

/-!
Verification of the command-interpretation and validated state-transition
pipeline of the Smart-Home-Automation API (`home/views.py`,
`home/utils/gemini.py`, `home/utils/logger.py`, `home/models.py`).

The embedding is shallow: each Python function of the pipeline is translated
into an executable Lean function over an explicit model of Python/JSON values
(`PyVal`) and of the device/log store (lists of records).  Machine floats are
modelled as exact rationals; the modelling notes on each definition record
where Python float/unicode behaviour is approximated.  No claim settled below
depends on one of those approximations.
-/

namespace SmartHome

/-- Model of the Python/JSON values that flow through the pipeline
(`request.data.get(...)` results, `json.loads` results, values handed to
`apply_device_action`).  Python `None`/JSON `null` is `vnone`; Python `int`
and `float` are kept as separate constructors because `str()` renders them
differently; floats are modelled as exact rationals (a genuine Python float
is a binary double — no settled claim depends on the difference). -/
inductive PyVal where
  | vnone : PyVal
  | vbool : Bool → PyVal
  | vint : Int → PyVal
  | vfloat : ℚ → PyVal
  | vstr : String → PyVal
  | varr : List PyVal → PyVal
  | vobj : List (String × PyVal) → PyVal
  deriving Repr

/-- Python truthiness (`bool(v)`) for the modelled values: `None`, `False`,
numeric zero, the empty string and empty containers are falsy. -/
def pyTruthy : PyVal → Bool
  | .vnone => false
  | .vbool b => b
  | .vint n => n ≠ 0
  | .vfloat q => q ≠ 0
  | .vstr s => s ≠ ""
  | .varr l => !l.isEmpty
  | .vobj l => !l.isEmpty

/-- Python `v == "name"` for a string literal: only a `str` can compare equal
to a string (ints, floats, bools, `None`, containers never do). -/
def pyEqStr : PyVal → String → Bool
  | .vstr a, s => a = s
  | _, _ => false

/-- Python `v is None`. -/
def pyIsNone : PyVal → Bool
  | .vnone => true
  | _ => false

/-- Left brace character, kept out of string literals. -/
def lbrace : Char := Char.ofNat 123

/-- Right brace character. -/
def rbrace : Char := Char.ofNat 125

/-- Apostrophe character (used by Python `repr` of strings). -/
def squote : Char := Char.ofNat 39

/-- The backtick character. -/
def btk : Char := Char.ofNat 96

/-- Digits of a natural number, most significant first (for decimal
rendering of the fractional part of a float). -/
def fracDigits : Nat → Nat → Nat → List Char
  | 0, _, _ => []
  | _+1, _, 0 => []
  | fuel+1, num, den =>
    let d := num * 10 / den
    let r := num * 10 % den
    (Char.ofNat (48 + d % 10)) :: (if r = 0 then [] else fracDigits fuel r den)

/-- Modelling note: rendering of a Python `float` by `str()`.  Python prints
the shortest decimal that round-trips through the binary double; since
floats are modelled as exact rationals here, this renders the exact decimal
expansion (truncated at 17 digits for non-terminating expansions).  On the
integral and short-decimal values appearing in this development the two
agree (`str(20.0) = "20.0"`, `str(20.5) = "20.5"`); no settled claim
depends on this function's output. -/
def floatRepr (q : ℚ) : String :=
  let sign := if q < 0 then "-" else ""
  let a := |q|
  let ip : Nat := a.num.toNat / a.den
  let fnum : Nat := a.num.toNat % a.den
  if fnum = 0 then sign ++ toString ip ++ ".0"
  else sign ++ toString ip ++ "." ++ String.mk (fracDigits 17 fnum a.den)

mutual
/-- Python `repr` of a modelled value (used by `str` on containers).
Modelling note: string quoting/escaping inside containers is simplified to
plain single quotes; no settled claim inspects this output. -/
def pyReprV : PyVal → String
  | .vnone => "None"
  | .vbool true => "True"
  | .vbool false => "False"
  | .vint n => toString n
  | .vfloat q => floatRepr q
  | .vstr s => String.mk (squote :: s.data) ++ String.mk [squote]
  | .varr l => "[" ++ String.intercalate ", " (pyReprListV l) ++ "]"
  | .vobj l => String.mk [lbrace] ++ String.intercalate ", " (pyReprPairsV l) ++ String.mk [rbrace]

/-- `repr` of each element of a list. -/
def pyReprListV : List PyVal → List String
  | [] => []
  | v :: vs => pyReprV v :: pyReprListV vs

/-- `repr` of each key/value pair of a dict. -/
def pyReprPairsV : List (String × PyVal) → List String
  | [] => []
  | (k, v) :: ps =>
    (String.mk (squote :: k.data) ++ String.mk [squote] ++ ": " ++ pyReprV v) :: pyReprPairsV ps
end

/-- Python `str(v)` for the modelled values (`device.status = str(value)`,
f-string interpolation). -/
def pyStrV : PyVal → String
  | .vnone => "None"
  | .vbool true => "True"
  | .vbool false => "False"
  | .vint n => toString n
  | .vfloat q => floatRepr q
  | .vstr s => s
  | .varr l => pyReprV (.varr l)
  | .vobj l => pyReprV (.vobj l)

/-- Python dict membership `k in d` for a parsed JSON object (`False` on the
unreachable non-dict case, where CPython would raise and the surrounding
`except` would turn the request into a failure anyway). -/
def pyHasKey (v : PyVal) (k : String) : Bool :=
  match v with
  | .vobj l => l.any (fun p => p.1 = k)
  | _ => false

/-- Python `d[k]` / `d.get(k)` on a parsed JSON object: later duplicate keys
win, as in the dict produced by `json.loads`; absent key gives `None`
(matching `d.get(k)`; the code only indexes keys it has checked). -/
def pyGetKey (v : PyVal) (k : String) : PyVal :=
  match v with
  | .vobj l =>
    match (l.reverse.find? (fun p => p.1 = k)) with
    | some p => p.2
    | none => .vnone
  | _ => .vnone

/-- Lower-casing of one character (`str.lower()`, ASCII fragment;
device-type strings and device names in this development are ASCII). -/
def lowerCh (c : Char) : Char :=
  if 65 ≤ c.toNat ∧ c.toNat ≤ 90 then Char.ofNat (c.toNat + 32) else c

/-- Python `str.lower()` (ASCII fragment). -/
def strLower (s : String) : String := String.mk (s.data.map lowerCh)

/-- ASCII decimal digit test. -/
def isDigitCh (c : Char) : Bool := 48 ≤ c.toNat ∧ c.toNat ≤ 57

/-- Value of one ASCII digit. -/
def digitVal (c : Char) : Nat := c.toNat - 48

/-- Natural number denoted by a digit list (most significant first),
accumulator form. -/
def digitsToNat (acc : Nat) : List Char → Nat
  | [] => acc
  | c :: cs => digitsToNat (acc * 10 + digitVal c) cs

/-- The Python whitespace class used by `str.strip()` and by `\s` in the
cleanup regexes (ASCII fragment: space, tab, newline, carriage return,
vertical tab, form feed).  Modelling note: Python also strips some further
unicode whitespace; the service responses under analysis are ASCII. -/
def isPySpace (c : Char) : Bool :=
  c = ' ' ∨ c = '\t' ∨ c = '\n' ∨ c = '\r' ∨ c = Char.ofNat 11 ∨ c = Char.ofNat 12

/-- Python `float(string)` fractional grammar after the optional sign:
`digits [. digits]` or `. digits`, with an optional exponent.  Returns the
parsed rational.  Modelling note: `inf`/`nan` literals and underscore digit
separators are not modelled (no settled claim involves them); a genuine
Python float would additionally round to the nearest binary double. -/
def parseUnsignedFloat (cs : List Char) : Option ℚ :=
  let ipart := cs.takeWhile isDigitCh
  let rest := cs.dropWhile isDigitCh
  let withFrac : Option (ℚ × List Char) :=
    match rest with
    | '.' :: r =>
      let fdigits := r.takeWhile isDigitCh
      let r' := r.dropWhile isDigitCh
      if ipart.isEmpty ∧ fdigits.isEmpty then none
      else some (((digitsToNat 0 ipart : ℚ) + (digitsToNat 0 fdigits : ℚ) / ((10 : ℚ) ^ fdigits.length)), r')
    | _ =>
      if ipart.isEmpty then none
      else some ((digitsToNat 0 ipart : ℚ), rest)
  match withFrac with
  | none => none
  | some (m, r) =>
    match r with
    | 'e' :: r1 | 'E' :: r1 =>
      let (esign, r2) : ℚ × List Char :=
        match r1 with
        | '+' :: t => (1, t)
        | '-' :: t => (-1, t)
        | t => (1, t)
      let edigits := r2.takeWhile isDigitCh
      let r3 := r2.dropWhile isDigitCh
      if edigits.isEmpty ∨ ¬ r3.isEmpty then none
      else
        let e : Nat := digitsToNat 0 edigits
        if esign = 1 then some (m * (10 : ℚ) ^ e) else some (m / (10 : ℚ) ^ e)
    | [] => some m
    | _ => none

/-- Python `float(string)`: strip whitespace, optional sign, then the
unsigned float grammar. -/
def parsePyFloat (s : String) : Option ℚ :=
  let cs := (s.data.dropWhile isPySpace).reverse.dropWhile isPySpace |>.reverse
  match cs with
  | '+' :: r => parseUnsignedFloat r
  | '-' :: r => (parseUnsignedFloat r).map (fun q => -q)
  | r => parseUnsignedFloat r

/-- Python `float(value)` as used by `validate_device_value`: numbers coerce
to themselves (`bool` is an `int` subclass, so `True`/`False` coerce to
1/0), strings are parsed, `None` and containers raise
(`TypeError`) — modelled as `none`. -/
def pyFloat? : PyVal → Option ℚ
  | .vint n => some (n : ℚ)
  | .vfloat q => some q
  | .vbool b => some (if b then 1 else 0)
  | .vstr s => parsePyFloat s
  | .vnone => none
  | .varr _ => none
  | .vobj _ => none

/-! ## The data model (`home/models.py`) -/

/-- `home.models.Device`: identity, owning user, display name, free-form
type string, free-form status string. -/
structure Device where
  id : Nat
  userId : Nat
  name : String
  device_type : String
  status : String
  deriving Repr, DecidableEq

/-- `home.models.Log`: a log entry referencing a device by id, the action
applied and the optional value (kept as the modelled Python value that was
handed to `log_action`). -/
structure Log where
  deviceId : Nat
  action : PyVal
  value : PyVal
  deriving Repr

/-- One row of `DEVICE_LIMITS`. -/
structure Limits where
  min : Int
  max : Int
  unit : String
  deriving Repr, DecidableEq

/-- `home.views.DEVICE_LIMITS`: static per-device-type bounds. -/
def DEVICE_LIMITS : List (String × Limits) :=
  [("thermostat", ⟨16, 32, "°C"⟩),
   ("ac", ⟨16, 30, "°C"⟩),
   ("heater", ⟨18, 35, "°C"⟩),
   ("fan", ⟨0, 5, "speed"⟩)]

/-- Dict lookup in `DEVICE_LIMITS` (`device_type in DEVICE_LIMITS` /
`DEVICE_LIMITS[device_type]`; the literal has no duplicate keys). -/
def limitsFor (deviceType : String) : Option Limits :=
  (DEVICE_LIMITS.find? (fun p => p.1 = deviceType)).map (·.2)

/-- The out-of-range message
`f"{device.name} {unit} must be between {min_val} and {max_val}"`. -/
def rangeMsg (d : Device) (lim : Limits) : String :=
  d.name ++ " " ++ lim.unit ++ " must be between " ++ toString lim.min ++ " and " ++ toString lim.max

/-- `home.views.validate_device_value`: look up the lower-cased device type
in the limits table; if present, coerce the value to float (failure →
`"Invalid value: must be a number"`) and enforce the inclusive bounds;
device types absent from the table validate unconditionally. -/
def validate_device_value (d : Device) (value : PyVal) : Bool × Option String :=
  match limitsFor (strLower d.device_type) with
  | some lim =>
    match pyFloat? value with
    | none => (false, some "Invalid value: must be a number")
    | some q =>
      if q < (lim.min : ℚ) ∨ q > (lim.max : ℚ) then (false, some (rangeMsg d lim))
      else (true, none)
  | none => (true, none)

/-- `home.views.apply_device_action`: the single mutation gateway.  Returns
`(success, error_message, resulting device)`; the Python function mutates
`device` in place and `save()`s it, which the pure embedding renders by
returning the updated record (unchanged on every failure path). -/
def apply_device_action (d : Device) (action : PyVal) (value : PyVal) : Bool × Option String × Device :=
  if pyEqStr action "turn_on" then (true, none, { d with status := "on" })
  else if pyEqStr action "turn_off" then (true, none, { d with status := "off" })
  else if pyEqStr action "set_temperature" ∧ ¬ pyIsNone value then
    let r := validate_device_value d value
    if ¬ r.1 then (false, r.2, d)
    else (true, none, { d with status := pyStrV value })
  else if pyEqStr action "set_speed" ∧ ¬ pyIsNone value then
    let r := validate_device_value d value
    if ¬ r.1 then (false, r.2, d)
    else (true, none, { d with status := pyStrV value })
  else (false, some "Invalid action or missing value", d)

/-- The action names `apply_device_action` implements (the guards of its
four success branches). -/
def applyActions : List String :=
  ["turn_on", "turn_off", "set_temperature", "set_speed"]

/-- The enumerated action set offered to the service in the prompt built by
`parse_command_with_gemini` (`"4. Actions: turn_on, turn_off,
set_temperature, set_brightness, set_speed"`). -/
def geminiPromptActions : List String :=
  ["turn_on", "turn_off", "set_temperature", "set_brightness", "set_speed"]

/-- `home.utils.logger.log_action`: re-fetch the device by id and append a
log entry; if the device has vanished the write is silently skipped.  The
store of devices is passed explicitly. -/
def log_action (devices : List Device) (deviceId : Nat) (action : PyVal) (value : PyVal)
    (logs : List Log) : List Log :=
  if devices.any (fun d => d.id = deviceId) then logs ++ [⟨deviceId, action, value⟩]
  else logs

/-! ## The command interpreter (`home/utils/gemini.py`)

`parse_command_with_gemini` sends a prompt to the external service and then
post-processes `response.text`.  The network round trip is abstracted as an
oracle: the model takes the service's response text (`none` standing for a
missing API key or a raised exception, both of which return `None` in the
source).  The post-processing — `strip`, the two `re.sub` cleanups, the
brace-delimited extraction, `json.loads`, the required-field check — is
embedded executably below. -/

/-- `str.strip()` on a character list: drop leading and trailing
whitespace. -/
def stripL (l : List Char) : List Char :=
  ((l.dropWhile isPySpace).reverse.dropWhile isPySpace).reverse

/-- One pass of `re.sub(lit + r"\s*", "", s)` for a literal pattern `lit`:
scan left to right; at a match, delete the literal and the following
(greedy) whitespace and continue after it; otherwise emit the character.
Fuel-indexed so that the definition is structural (and hence reducible by
the kernel); `pySub` instantiates the fuel sufficiently. -/
def subF : Nat → List Char → List Char → List Char
  | 0, _, s => s
  | _+1, _, [] => []
  | f+1, lit, c :: cs =>
    if lit.isPrefixOf (c :: cs) then
      subF f lit ((List.drop lit.length (c :: cs)).dropWhile isPySpace)
    else c :: subF f lit cs

/-- `re.sub(lit + r"\s*", "", s)` with adequate fuel. -/
def pySub (lit : List Char) (s : List Char) : List Char :=
  subF (s.length + 1) lit s

/-- The literal part of the first cleanup pattern, `` ```json ``. -/
def jsonFenceLit : List Char := "```json".data

/-- The literal part of the second cleanup pattern, `` ``` ``. -/
def fenceLit : List Char := "```".data

/-- `re.search(r"\{[^}]*\}", s, re.DOTALL)`: the match starts at the first
left brace that is followed by a right brace and extends to the first right
brace after it (`[^}]*` is maximal up to the first right brace and matches
newlines under `DOTALL`).  When the first left brace has no right brace
after it, no later left brace has one either, so the search fails. -/
def extractBraces : List Char → Option (List Char)
  | [] => none
  | c :: cs =>
    if c = lbrace then
      let a := cs.takeWhile (fun x => x ≠ rbrace)
      if a.length = cs.length then none else some (lbrace :: (a ++ [rbrace]))
    else extractBraces cs

/-- JSON whitespace accepted by `json.loads` between tokens. -/
def isJsonWs (c : Char) : Bool :=
  c = ' ' ∨ c = '\t' ∨ c = '\n' ∨ c = '\r'

/-- Value of a hexadecimal digit, for `\uXXXX` escapes. -/
def hexVal? (c : Char) : Option Nat :=
  if 48 ≤ c.toNat ∧ c.toNat ≤ 57 then some (c.toNat - 48)
  else if 97 ≤ c.toNat ∧ c.toNat ≤ 102 then some (c.toNat - 87)
  else if 65 ≤ c.toNat ∧ c.toNat ≤ 70 then some (c.toNat - 55)
  else none

/-- The single-character JSON string escapes. -/
def escChar? : Char → Option Char
  | '"' => some '"'
  | '\\' => some '\\'
  | '/' => some '/'
  | 'b' => some (Char.ofNat 8)
  | 'f' => some (Char.ofNat 12)
  | 'n' => some '\n'
  | 'r' => some '\r'
  | 't' => some '\t'
  | _ => none

/-- Body of a JSON string after the opening quote: returns the decoded
characters and the rest after the closing quote.  Raw control characters
are rejected (`json.loads` is strict by default).  Modelling note:
surrogate-pair recombination for `\u` escapes is not modelled (Lean `Char`
cannot hold lone surrogates); no settled claim involves them. -/
def parseJStrChars : List Char → Option (List Char × List Char)
  | [] => none
  | '"' :: r => some ([], r)
  | '\\' :: 'u' :: h1 :: h2 :: h3 :: h4 :: r2 =>
    match hexVal? h1, hexVal? h2, hexVal? h3, hexVal? h4 with
    | some a, some b, some c, some d =>
      (parseJStrChars r2).map (fun p => (Char.ofNat (((a * 16 + b) * 16 + c) * 16 + d) :: p.1, p.2))
    | _, _, _, _ => none
  | '\\' :: e :: r1 =>
    match escChar? e with
    | some d => (parseJStrChars r1).map (fun p => (d :: p.1, p.2))
    | none => none
  | c :: r =>
    if c.toNat < 32 then none
    else (parseJStrChars r).map (fun p => (c :: p.1, p.2))

/-- A JSON number, following the scanner regex of `json.decoder`:
`(-?(?:0|[1-9]\d*))(\.\d+)?([eE][-+]?\d+)?`.  Yields an `int` when neither
a fraction nor an exponent is present, else a `float` (modelled exactly as
a rational). -/
def jsonNumber (cs : List Char) : Option (PyVal × List Char) :=
  let signed : Bool × List Char := match cs with
    | '-' :: t => (true, t)
    | t => (false, t)
  let neg := signed.1
  match signed.2 with
  | c :: t =>
    if ¬ isDigitCh c then none
    else
      let ipart : List Char × List Char :=
        if c = '0' then (['0'], t)
        else ((c :: t).takeWhile isDigitCh, (c :: t).dropWhile isDigitCh)
      let i : Nat := digitsToNat 0 ipart.1
      let fpart : Option (List Char) × List Char :=
        match ipart.2 with
        | '.' :: r2 =>
          let fd := r2.takeWhile isDigitCh
          if fd.isEmpty then (none, ipart.2) else (some fd, r2.dropWhile isDigitCh)
        | r2 => (none, r2)
      let epart : Option (Bool × Nat) × List Char :=
        match fpart.2 with
        | 'e' :: r3 | 'E' :: r3 =>
          let es : Bool × List Char := match r3 with
            | '+' :: t3 => (false, t3)
            | '-' :: t3 => (true, t3)
            | t3 => (false, t3)
          let ed := es.2.takeWhile isDigitCh
          if ed.isEmpty then (none, fpart.2)
          else (some (es.1, digitsToNat 0 ed), es.2.dropWhile isDigitCh)
        | r3 => (none, r3)
      match fpart.1, epart.1 with
      | none, none => some (.vint (if neg then -(i : Int) else (i : Int)), fpart.2)
      | fd?, e? =>
        let m : ℚ := (i : ℚ) +
          (match fd? with
           | some fd => (digitsToNat 0 fd : ℚ) / (10 : ℚ) ^ fd.length
           | none => 0)
        let m := if neg then -m else m
        let m := match e? with
          | some (true, e) => m / (10 : ℚ) ^ e
          | some (false, e) => m * (10 : ℚ) ^ e
          | none => m
        some (.vfloat m, epart.2)
  | [] => none

mutual
/-- A JSON value (fuel-indexed recursive-descent model of `json.loads`).
Modelling note: the non-standard `NaN`/`Infinity` constants accepted by
Python are not modelled (not representable as rationals); no settled claim
involves them. -/
def jParseVal : Nat → List Char → Option (PyVal × List Char)
  | 0, _ => none
  | f+1, l =>
    match l.dropWhile isJsonWs with
    | 'n' :: 'u' :: 'l' :: 'l' :: r => some (.vnone, r)
    | 't' :: 'r' :: 'u' :: 'e' :: r => some (.vbool true, r)
    | 'f' :: 'a' :: 'l' :: 's' :: 'e' :: r => some (.vbool false, r)
    | '"' :: r => (parseJStrChars r).map (fun p => (.vstr (String.mk p.1), p.2))
    | '[' :: r =>
      (match r.dropWhile isJsonWs with
       | ']' :: r' => some (.varr [], r')
       | _ => (jParseElems f r).map (fun p => (.varr p.1, p.2)))
    | c :: r =>
      if c = lbrace then
        (match r.dropWhile isJsonWs with
         | c' :: r' =>
           if c' = rbrace then some (.vobj [], r')
           else (jParseMembers f r).map (fun p => (.vobj p.1, p.2))
         | [] => none)
      else jsonNumber (c :: r)
    | [] => none

/-- Comma-separated JSON array elements up to the closing bracket. -/
def jParseElems : Nat → List Char → Option (List PyVal × List Char)
  | 0, _ => none
  | f+1, l => do
    let (v, r) ← jParseVal f l
    match r.dropWhile isJsonWs with
    | ',' :: r' => (jParseElems f r').map (fun p => (v :: p.1, p.2))
    | ']' :: r' => some ([v], r')
    | _ => none

/-- Comma-separated JSON object members up to the closing brace. -/
def jParseMembers : Nat → List Char → Option (List (String × PyVal) × List Char)
  | 0, _ => none
  | f+1, l =>
    match l.dropWhile isJsonWs with
    | '"' :: r => do
      let (k, r1) ← parseJStrChars r
      match r1.dropWhile isJsonWs with
      | ':' :: r2 => do
        let (v, r3) ← jParseVal f r2
        match r3.dropWhile isJsonWs with
        | ',' :: r4 => (jParseMembers f r4).map (fun p => ((String.mk k, v) :: p.1, p.2))
        | c :: r4 =>
          if c = rbrace then some ([(String.mk k, v)], r4) else none
        | [] => none
      | _ => none
    | _ => none
end

/-- `json.loads`: parse one JSON value and require only whitespace after
it. -/
def jsonLoads (l : List Char) : Option PyVal :=
  match jParseVal (2 * l.length + 4) l with
  | some (v, r) => if (r.dropWhile isJsonWs).isEmpty then some v else none
  | none => none

/-- The post-processing of the service response text inside
`parse_command_with_gemini`: `strip`, remove every `` ```json `` plus
trailing whitespace, remove every `` ``` `` plus trailing whitespace,
`strip` again, extract the first brace-delimited block, `json.loads` it and
require the keys `"device_name"` and `"action"`; any failure yields
`none`. -/
def parseServiceResponse (respText : String) : Option PyVal :=
  match extractBraces (stripL (pySub fenceLit (pySub jsonFenceLit (stripL respText.data)))) with
  | none => none
  | some block =>
    match jsonLoads block with
    | none => none
    | some parsed =>
      if pyHasKey parsed "device_name" ∧ pyHasKey parsed "action" then some parsed
      else none

/-- `home.utils.gemini.parse_command_with_gemini`, with the external call
abstracted: the argument is the service's response text, `none` standing
for a missing `GEMINI_API_KEY` or an exception raised by the call (both
return `None` in the source). -/
def parse_command_with_gemini (svcResp : Option String) : Option PyVal :=
  match svcResp with
  | none => none
  | some t => parseServiceResponse t

/-- Markdown fencing of a response text, on character lists. -/
def wrapFenceL (t : List Char) : List Char :=
  jsonFenceLit ++ ('\n' :: (t ++ '\n' :: fenceLit))

/-- A response wrapped in markdown code fences (` ```json … ``` `). -/
def wrapFence (t : String) : String :=
  "```json\n" ++ t ++ "\n```"

/-! ## The dispatch layer (`home/views.py`) -/

/-- The response of `DeviceViewSet.control` together with the resulting
device record and log store. -/
structure ControlResult where
  httpStatus : Nat
  error : Option String
  message : Option String
  deviceField : Option String
  newStatusField : Option String
  device : Device
  logs : List Log
  deriving Repr

/-- `DeviceViewSet.control` on a device already resolved by
`get_object_or_404`: apply the action; on failure answer 400 with the error
and leave everything untouched; on success log the action and answer 200. -/
def control (device : Device) (actionType : PyVal) (value : PyVal) (logs : List Log) :
    ControlResult :=
  let r := apply_device_action device actionType value
  if ¬ r.1 then
    ⟨400, r.2.1, none, none, none, r.2.2, logs⟩
  else
    let dev' := r.2.2
    ⟨200, none, some (dev'.name ++ " updated to " ++ dev'.status), some dev'.name,
      some dev'.status, dev', log_action [dev'] device.id actionType value logs⟩

/-- Replace the first element satisfying `p` (the in-place mutation of the
object returned by `.first()`, seen from the store). -/
def updFirst (p : Device → Bool) (new : Device) : List Device → List Device
  | [] => []
  | d :: ds => if p d then new :: ds else d :: updFirst p new ds

/-- Django `name__iexact=device_name`: case-insensitive exact match of the
stringified query value against the stored name. -/
def iexactMatch (dn : PyVal) (name : String) : Bool :=
  strLower (pyStrV dn) = strLower name

/-- The response of `AssistantCommandView.post` together with the resulting
device store and log store. -/
structure AssistantResult where
  httpStatus : Nat
  error : Option String
  suggestion : Option String
  message : Option String
  deviceField : Option String
  actionField : Option PyVal
  valueField : Option PyVal
  newStatusField : Option String
  commandField : Option PyVal
  devices : List Device
  logs : List Log
  deriving Repr

/-- `AssistantCommandView.post`: require a truthy command, interpret it via
the service (abstracted as the response oracle `svcResp`), re-check the
required keys, resolve the device case-insensitively among the requesting
user's devices (`devices` is the user-scoped store), apply the action and
log it.  Every failure path leaves the stores untouched. -/
def assistantPost (command : PyVal) (svcResp : Option String) (devices : List Device)
    (logs : List Log) : AssistantResult :=
  if ¬ pyTruthy command then
    ⟨400, some "Missing command", none, none, none, none, none, none, none, devices, logs⟩
  else
    match parse_command_with_gemini svcResp with
    | none =>
      ⟨400, some "Could not understand command. Please try again.", none, none, none,
        none, none, none, none, devices, logs⟩
    | some parsed =>
      if ¬ (pyTruthy parsed ∧ pyHasKey parsed "device_name" ∧ pyHasKey parsed "action") then
        ⟨400, some "Could not understand command. Please try again.", none, none, none,
          none, none, none, none, devices, logs⟩
      else
        let deviceName := pyGetKey parsed "device_name"
        let act := pyGetKey parsed "action"
        let v := pyGetKey parsed "value"
        match devices.find? (fun d => iexactMatch deviceName d.name) with
        | none =>
          ⟨404,
            some ("Device " ++ String.mk [squote] ++ pyStrV deviceName ++ String.mk [squote] ++ " not found"),
            some "Please check device name or add it first", none, none, none, none, none,
            some command, devices, logs⟩
        | some dev =>
          let r := apply_device_action dev act v
          if ¬ r.1 then
            ⟨400, r.2.1, none, none, some dev.name, none, none, none, some command,
              devices, logs⟩
          else
            let dev' := r.2.2
            let devices' := updFirst (fun d => iexactMatch deviceName d.name) dev' devices
            ⟨200, none, none, some (dev'.name ++ " updated successfully"), some dev'.name,
              some act, some (if pyTruthy v then v else .vnone), some dev'.status,
              some command, devices', log_action devices' dev.id act v logs⟩

/-! ## Lemmas about the cleanup pipeline

The key algebraic fact behind the fence-wrapping claim is that each
`re.sub` pass commutes with appending the wrapper's fence fragments, up to
whitespace that the final `strip` discards. -/

theorem length_dropWhile_le' (p : Char → Bool) (l : List Char) :
    (l.dropWhile p).length ≤ l.length := by
  induction l with
  | nil => simp
  | cons x xs ih =>
    by_cases h : p x
    · simp only [List.dropWhile_cons, h, if_true, List.length_cons]; omega
    · simp [List.dropWhile_cons, h]

theorem subF_fuel (f g : Nat) (lit s : List Char) (hlit : 0 < lit.length)
    (hf : s.length < f) (hg : s.length < g) : subF f lit s = subF g lit s := by
  induction f generalizing g s with
  | zero => omega
  | succ f ih =>
    cases g with
    | zero => omega
    | succ g =>
      cases s with
      | nil => rfl
      | cons c cs =>
        simp only [subF]
        by_cases h : lit.isPrefixOf (c :: cs)
        · simp only [h, if_true]
          have h1 := length_dropWhile_le' isPySpace (List.drop lit.length (c :: cs))
          have h2 := List.length_drop lit.length (c :: cs)
          apply ih
          · simp only [List.length_cons] at hf h2 ⊢; omega
          · simp only [List.length_cons] at hg h2 ⊢; omega
        · simp only [List.length_cons] at hf hg
          have hcs := ih g cs (by omega) (by omega)
          simp [h, hcs]

theorem pySub_nil (lit : List Char) : pySub lit [] = [] := rfl

theorem pySub_cons (lit : List Char) (hlit : 0 < lit.length) (c : Char) (cs : List Char) :
    pySub lit (c :: cs) =
      if lit.isPrefixOf (c :: cs) then
        pySub lit ((List.drop lit.length (c :: cs)).dropWhile isPySpace)
      else c :: pySub lit cs := by
  show subF ((c :: cs).length + 1) lit (c :: cs) = _
  simp only [subF]
  by_cases h : lit.isPrefixOf (c :: cs)
  · have heq : subF (cs.length + 1) lit ((List.drop lit.length (c :: cs)).dropWhile isPySpace)
        = pySub lit ((List.drop lit.length (c :: cs)).dropWhile isPySpace) := by
      apply subF_fuel _ _ _ _ hlit
      · have h1 := length_dropWhile_le' isPySpace (List.drop lit.length (c :: cs))
        have h2 := List.length_drop lit.length (c :: cs)
        simp only [List.length_cons] at h2 ⊢; omega
      · omega
    simp [h, heq]
  · simp only [List.length_cons]
    simp [h]
    rfl

theorem pySub_cons_pos (lit : List Char) (hlit : 0 < lit.length) (c : Char) (cs : List Char)
    (h : lit.isPrefixOf (c :: cs) = true) :
    pySub lit (c :: cs) = pySub lit ((List.drop lit.length (c :: cs)).dropWhile isPySpace) := by
  rw [pySub_cons lit hlit c cs, h]
  simp

theorem pySub_cons_neg (lit : List Char) (hlit : 0 < lit.length) (c : Char) (cs : List Char)
    (h : lit.isPrefixOf (c :: cs) = false) :
    pySub lit (c :: cs) = c :: pySub lit cs := by
  rw [pySub_cons lit hlit c cs, h]
  simp

theorem isPrefixOf_ex (lit s : List Char) (h : lit.isPrefixOf s = true) :
    lit ++ List.drop lit.length s = s := by
  induction lit generalizing s with
  | nil => simp
  | cons a as ih =>
    cases s with
    | nil => simp [List.isPrefixOf] at h
    | cons b bs =>
      simp only [List.isPrefixOf, Bool.and_eq_true, beq_iff_eq] at h
      obtain ⟨rfl, h2⟩ := h
      simpa [List.length_cons, List.drop_succ_cons] using ih bs h2

theorem isPrefixOf_self_app (lit r : List Char) : lit.isPrefixOf (lit ++ r) = true := by
  induction lit with
  | nil => simp [List.isPrefixOf]
  | cons a as ih => simp [List.isPrefixOf, ih]

theorem isPrefixOf_head_ne (a : Char) (as : List Char) (c : Char) (cs : List Char)
    (h : c ≠ a) : (a :: as).isPrefixOf (c :: cs) = false := by
  have hne : (a == c) = false := beq_eq_false_iff_ne.mpr (Ne.symm h)
  simp [List.isPrefixOf, hne]

theorem isPrefixOf_app_head (lit : List Char) (e : Char) (E : List Char)
    (he : e ∉ lit) : ∀ Y : List Char, lit.isPrefixOf (Y ++ e :: E) = lit.isPrefixOf Y := by
  induction lit with
  | nil => intro Y; simp [List.isPrefixOf]
  | cons a as ih =>
    intro Y
    cases Y with
    | nil =>
      have hne : (a == e) = false := by
        apply beq_eq_false_iff_ne.mpr
        intro hae
        exact he (hae ▸ List.mem_cons_self a as)
      simp [List.isPrefixOf, hne]
    | cons y Y' =>
      show (a == y && as.isPrefixOf (Y' ++ e :: E)) = (a == y && as.isPrefixOf Y')
      rw [ih (fun hm => he (List.mem_cons_of_mem a hm)) Y']

theorem ws_ne_btk {c : Char} (h : isPySpace c = true) : c ≠ btk := by
  simp only [isPySpace, decide_eq_true_eq] at h
  rcases h with h | h | h | h | h | h <;> subst h <;> decide

theorem pySub_not_btk (lit lt : List Char) (hl : lit = btk :: lt)
    (c : Char) (cs : List Char) (hc : c ≠ btk) :
    pySub lit (c :: cs) = c :: pySub lit cs := by
  apply pySub_cons_neg lit (by simp [hl]) c cs
  rw [hl]
  exact isPrefixOf_head_ne btk lt c cs hc

theorem pySub_ws_append (lit lt : List Char) (hl : lit = btk :: lt) (w s : List Char)
    (hw : ∀ c ∈ w, isPySpace c = true) :
    pySub lit (w ++ s) = w ++ pySub lit s := by
  induction w with
  | nil => simp
  | cons x xs ih =>
    have hx : x ≠ btk := ws_ne_btk (hw x (List.mem_cons_self x xs))
    rw [List.cons_append, pySub_not_btk lit lt hl x (xs ++ s) hx,
      ih (fun c hc => hw c (List.mem_cons_of_mem x hc))]
    rfl

theorem pySub_ws_self (lit lt : List Char) (hl : lit = btk :: lt) (w : List Char)
    (hw : ∀ c ∈ w, isPySpace c = true) : pySub lit w = w := by
  have := pySub_ws_append lit lt hl w [] hw
  simpa [pySub_nil] using this

theorem pySub_append_gen (lit : List Char) (hlit : 0 < lit.length) (E : List Char)
    (hpre : ∀ Y : List Char, lit.isPrefixOf (Y ++ E) = lit.isPrefixOf Y) :
    ∀ X : List Char, pySub lit (X ++ E) = pySub lit X ++ pySub lit E ∨
      pySub lit (X ++ E) = pySub lit X ++ pySub lit (E.dropWhile isPySpace) := by
  suffices h : ∀ n X, X.length ≤ n →
      (pySub lit (X ++ E) = pySub lit X ++ pySub lit E ∨
       pySub lit (X ++ E) = pySub lit X ++ pySub lit (E.dropWhile isPySpace)) by
    intro X; exact h X.length X le_rfl
  intro n
  induction n with
  | zero =>
    intro X hX
    have hXnil : X = [] := List.length_eq_zero.mp (Nat.le_zero.mp hX)
    subst hXnil
    left; simp [pySub_nil]
  | succ n ih =>
    intro X hX
    cases X with
    | nil => left; simp [pySub_nil]
    | cons c cs =>
      by_cases h : lit.isPrefixOf (c :: cs)
      · have hdecomp : lit ++ List.drop lit.length (c :: cs) = c :: cs :=
          isPrefixOf_ex lit (c :: cs) h
        have hcond : lit.isPrefixOf (c :: (cs ++ E)) = true := by
          have := hpre (c :: cs)
          simp only [List.cons_append] at this
          rw [this]; exact h
        have hLHS : pySub lit ((c :: cs) ++ E) =
            pySub lit ((List.drop lit.length (c :: cs) ++ E).dropWhile isPySpace) := by
          rw [List.cons_append, pySub_cons_pos lit hlit _ _ hcond]
          congr 2
          have : c :: (cs ++ E) = lit ++ (List.drop lit.length (c :: cs) ++ E) := by
            rw [← List.append_assoc, hdecomp, List.cons_append]
          rw [this, List.drop_left]
        have hRHS : pySub lit (c :: cs) =
            pySub lit ((List.drop lit.length (c :: cs)).dropWhile isPySpace) :=
          pySub_cons_pos lit hlit c cs h
        set R := List.drop lit.length (c :: cs) with hR
        rcases hsplit : R.dropWhile isPySpace with _ | ⟨r0, R'⟩
        · right
          have hdw : (R ++ E).dropWhile isPySpace = E.dropWhile isPySpace := by
            rw [List.dropWhile_append, hsplit]; simp
          rw [hLHS, hdw, hRHS, hsplit, pySub_nil, List.nil_append]
        · have hdw : (R ++ E).dropWhile isPySpace = R.dropWhile isPySpace ++ E := by
            rw [List.dropWhile_append, hsplit]; simp
          have hlen : (R.dropWhile isPySpace).length ≤ n := by
            have h1 := length_dropWhile_le' isPySpace R
            have h2 : R.length = (c :: cs).length - lit.length := by
              rw [hR, List.length_drop]
            simp only [List.length_cons] at hX h2
            omega
          rcases ih (R.dropWhile isPySpace) hlen with h1 | h1
          · left; rw [hLHS, hdw, h1, hRHS]
          · right; rw [hLHS, hdw, h1, hRHS]
      · have hfalse : lit.isPrefixOf (c :: cs) = false := by
          cases hb : lit.isPrefixOf (c :: cs)
          · rfl
          · exact absurd hb h
        have hcond : lit.isPrefixOf (c :: (cs ++ E)) = false := by
          have := hpre (c :: cs)
          simp only [List.cons_append] at this
          rw [this]; exact hfalse
        have hstep : pySub lit ((c :: cs) ++ E) = c :: pySub lit (cs ++ E) := by
          rw [List.cons_append]
          exact pySub_cons_neg lit hlit _ _ hcond
        have hstep2 : pySub lit (c :: cs) = c :: pySub lit cs :=
          pySub_cons_neg lit hlit c cs hfalse
        simp only [List.length_cons] at hX
        rcases ih cs (by omega) with h1 | h1
        · left; rw [hstep, h1, hstep2]; rfl
        · right; rw [hstep, h1, hstep2]; rfl

theorem fenceLit_eq : fenceLit = [btk, btk, btk] := by decide

theorem fenceLit_pos : 0 < fenceLit.length := by decide

theorem jsonFenceLit_pos : 0 < jsonFenceLit.length := by decide

theorem isPrefixOf_fence_two (c2 : Char) (Z : List Char) (h : c2 ≠ btk) :
    fenceLit.isPrefixOf (btk :: c2 :: Z) = false := by
  rw [fenceLit_eq]
  have : (btk == c2) = false := beq_eq_false_iff_ne.mpr (Ne.symm h)
  simp [List.isPrefixOf, this]

theorem isPrefixOf_fence_three (c3 : Char) (Z : List Char) (h : c3 ≠ btk) :
    fenceLit.isPrefixOf (btk :: btk :: c3 :: Z) = false := by
  rw [fenceLit_eq]
  have : (btk == c3) = false := beq_eq_false_iff_ne.mpr (Ne.symm h)
  simp [List.isPrefixOf, this]

theorem isPrefixOf_fence_all (Z : List Char) :
    fenceLit.isPrefixOf (btk :: btk :: btk :: Z) = true := by
  rw [fenceLit_eq]
  simp [List.isPrefixOf]

/-- Appending a bare fence to the end of the text does not change the
result of the second cleanup pass: the appended backticks are either
swallowed as a fresh match or complete the backticks dangling at the end of
the text, in every case producing exactly what the un-suffixed text
produces. -/
theorem pySub_fence_absorb : ∀ X : List Char,
    pySub fenceLit (X ++ fenceLit) = pySub fenceLit X := by
  suffices h : ∀ n X, X.length ≤ n → pySub fenceLit (X ++ fenceLit) = pySub fenceLit X by
    intro X; exact h X.length X le_rfl
  intro n
  induction n with
  | zero =>
    intro X hX
    have hXnil : X = [] := List.length_eq_zero.mp (Nat.le_zero.mp hX)
    subst hXnil
    decide
  | succ n ih =>
    intro X hX
    cases X with
    | nil => decide
    | cons c cs =>
      simp only [List.length_cons] at hX
      by_cases hc : c = btk
      · subst hc
        cases cs with
        | nil => decide
        | cons c2 cs2 =>
          simp only [List.length_cons] at hX
          by_cases hc2 : c2 = btk
          · subst hc2
            cases cs2 with
            | nil => decide
            | cons c3 cs3 =>
              simp only [List.length_cons] at hX
              by_cases hc3 : c3 = btk
              · subst hc3
                have hdropL : List.drop fenceLit.length
                    (btk :: btk :: btk :: (cs3 ++ fenceLit)) = cs3 ++ fenceLit := by
                  rw [fenceLit_eq]; rfl
                have hdropR : List.drop fenceLit.length (btk :: btk :: btk :: cs3) = cs3 := by
                  rw [fenceLit_eq]; rfl
                have hL : pySub fenceLit ((btk :: btk :: btk :: cs3) ++ fenceLit) =
                    pySub fenceLit ((cs3 ++ fenceLit).dropWhile isPySpace) := by
                  rw [show (btk :: btk :: btk :: cs3) ++ fenceLit
                      = btk :: btk :: btk :: (cs3 ++ fenceLit) from rfl,
                    pySub_cons_pos fenceLit fenceLit_pos _ _ (isPrefixOf_fence_all _), hdropL]
                have hR : pySub fenceLit (btk :: btk :: btk :: cs3) =
                    pySub fenceLit (cs3.dropWhile isPySpace) := by
                  rw [pySub_cons_pos fenceLit fenceLit_pos _ _ (isPrefixOf_fence_all _), hdropR]
                rw [hL, hR]
                rcases hsplit : cs3.dropWhile isPySpace with _ | ⟨r0, R'⟩
                · have : (cs3 ++ fenceLit).dropWhile isPySpace = fenceLit := by
                    rw [List.dropWhile_append, hsplit]
                    simp
                    decide
                  rw [this]
                  decide
                · have hdw : (cs3 ++ fenceLit).dropWhile isPySpace =
                      cs3.dropWhile isPySpace ++ fenceLit := by
                    rw [List.dropWhile_append, hsplit]; simp
                  rw [hdw, hsplit]
                  apply ih
                  have h1 := length_dropWhile_le' isPySpace cs3
                  rw [hsplit] at h1
                  simp only [List.length_cons] at h1 ⊢
                  omega
              · have hL : pySub fenceLit ((btk :: btk :: c3 :: cs3) ++ fenceLit) =
                    btk :: pySub fenceLit ((btk :: c3 :: cs3) ++ fenceLit) := by
                  rw [show (btk :: btk :: c3 :: cs3) ++ fenceLit
                      = btk :: (btk :: c3 :: (cs3 ++ fenceLit)) from rfl]
                  exact pySub_cons_neg fenceLit fenceLit_pos _ _
                    (isPrefixOf_fence_three c3 (cs3 ++ fenceLit) hc3)
                have hR : pySub fenceLit (btk :: btk :: c3 :: cs3) =
                    btk :: pySub fenceLit (btk :: c3 :: cs3) :=
                  pySub_cons_neg fenceLit fenceLit_pos _ _
                    (isPrefixOf_fence_three c3 cs3 hc3)
                rw [hL, hR, ih (btk :: c3 :: cs3) (by simp only [List.length_cons]; omega)]
          · have hL : pySub fenceLit ((btk :: c2 :: cs2) ++ fenceLit) =
                btk :: pySub fenceLit ((c2 :: cs2) ++ fenceLit) := by
              rw [show (btk :: c2 :: cs2) ++ fenceLit = btk :: (c2 :: (cs2 ++ fenceLit)) from rfl]
              exact pySub_cons_neg fenceLit fenceLit_pos _ _
                (isPrefixOf_fence_two c2 (cs2 ++ fenceLit) hc2)
            have hR : pySub fenceLit (btk :: c2 :: cs2) =
                btk :: pySub fenceLit (c2 :: cs2) :=
              pySub_cons_neg fenceLit fenceLit_pos _ _ (isPrefixOf_fence_two c2 cs2 hc2)
            rw [hL, hR, ih (c2 :: cs2) (by simp only [List.length_cons]; omega)]
      · have hL : pySub fenceLit ((c :: cs) ++ fenceLit) =
            c :: pySub fenceLit (cs ++ fenceLit) := by
          rw [List.cons_append]
          exact pySub_not_btk fenceLit [btk, btk] fenceLit_eq c _ hc
        have hR : pySub fenceLit (c :: cs) = c :: pySub fenceLit cs :=
          pySub_not_btk fenceLit [btk, btk] fenceLit_eq c cs hc
        rw [hL, hR, ih cs (by omega)]

theorem dropWhile_cons_false {p : Char → Bool} {c : Char} {cs : List Char} (h : p c = false) :
    (c :: cs).dropWhile p = c :: cs := by
  rw [List.dropWhile_cons, h]
  simp

theorem dropWhile_ws_app (w s : List Char) (hw : ∀ c ∈ w, isPySpace c = true) :
    (w ++ s).dropWhile isPySpace = s.dropWhile isPySpace := by
  induction w with
  | nil => rfl
  | cons x xs ih =>
    have hx := hw x (List.mem_cons_self x xs)
    simp only [List.cons_append, List.dropWhile_cons, hx, if_true]
    exact ih (fun c hc => hw c (List.mem_cons_of_mem x hc))

theorem stripL_ws_left (w s : List Char) (hw : ∀ c ∈ w, isPySpace c = true) :
    stripL (w ++ s) = stripL s := by
  unfold stripL
  rw [dropWhile_ws_app w s hw]

theorem stripL_ws_right (s w : List Char) (hw : ∀ c ∈ w, isPySpace c = true) :
    stripL (s ++ w) = stripL s := by
  unfold stripL
  rcases h : s.dropWhile isPySpace with _ | ⟨x, xs⟩
  · have h2 : (s ++ w).dropWhile isPySpace = [] := by
      rw [List.dropWhile_append, h]
      simpa using List.dropWhile_eq_nil_iff.mpr hw
    rw [h2]
  · have h2 : (s ++ w).dropWhile isPySpace = (x :: xs) ++ w := by
      rw [List.dropWhile_append, h]
      simp
    rw [h2, List.reverse_append,
      dropWhile_ws_app w.reverse (x :: xs).reverse
        (fun c hc => hw c (List.mem_reverse.mp hc))]

theorem dropWhile_head_false (p : Char → Bool) (l : List Char) (x : Char) (xs : List Char)
    (h : l.dropWhile p = x :: xs) : p x = false := by
  induction l with
  | nil => simp at h
  | cons c cs ih =>
    rw [List.dropWhile_cons] at h
    by_cases hc : p c
    · rw [if_pos hc] at h
      exact ih h
    · rw [if_neg hc] at h
      injection h with h1 h2
      subst h1
      simpa using hc

theorem stripL_decomp (l : List Char) : ∃ w, l.dropWhile isPySpace = stripL l ++ w ∧
    ∀ c ∈ w, isPySpace c = true := by
  refine ⟨((l.dropWhile isPySpace).reverse.takeWhile isPySpace).reverse, ?_, ?_⟩
  · conv_lhs => rw [← List.reverse_reverse (l.dropWhile isPySpace),
      ← List.takeWhile_append_dropWhile isPySpace (l.dropWhile isPySpace).reverse]
    rw [List.reverse_append]
    rfl
  · intro c hc
    exact List.mem_takeWhile_imp (List.mem_reverse.mp hc)

theorem jsonFenceLit_eq : jsonFenceLit = btk :: "``json".data := by decide

theorem ws_not_mem_json {c : Char} (h : isPySpace c = true) : c ∉ jsonFenceLit := by
  simp only [isPySpace, decide_eq_true_eq] at h
  rcases h with h | h | h | h | h | h <;> subst h <;> decide

theorem ws_not_mem_fence {c : Char} (h : isPySpace c = true) : c ∉ fenceLit := by
  simp only [isPySpace, decide_eq_true_eq] at h
  rcases h with h | h | h | h | h | h <;> subst h <;> decide

/-- Trailing whitespace after the text commutes out of the second cleanup
pass and is discarded by the final `strip`. -/
theorem strip_pipe2_ws (A w : List Char) (hw : ∀ c ∈ w, isPySpace c = true) :
    stripL (pySub fenceLit (A ++ w)) = stripL (pySub fenceLit A) := by
  rcases w with _ | ⟨e, w'⟩
  · simp
  · have hpre := isPrefixOf_app_head fenceLit e w'
      (ws_not_mem_fence (hw e (List.mem_cons_self e w')))
    rcases pySub_append_gen fenceLit fenceLit_pos (e :: w') hpre A with h1 | h1
    · rw [h1, pySub_ws_self fenceLit [btk, btk] fenceLit_eq (e :: w') hw]
      exact stripL_ws_right _ _ hw
    · rw [h1, List.dropWhile_eq_nil_iff.mpr hw, pySub_nil, List.append_nil]

/-- Trailing whitespace after the text commutes out of the whole cleanup
pipeline. -/
theorem strip_pipe_ws (U w : List Char) (hw : ∀ c ∈ w, isPySpace c = true) :
    stripL (pySub fenceLit (pySub jsonFenceLit (U ++ w))) =
    stripL (pySub fenceLit (pySub jsonFenceLit U)) := by
  rcases w with _ | ⟨e, w'⟩
  · simp
  · have hpre := isPrefixOf_app_head jsonFenceLit e w'
      (ws_not_mem_json (hw e (List.mem_cons_self e w')))
    rcases pySub_append_gen jsonFenceLit jsonFenceLit_pos (e :: w') hpre U with h1 | h1
    · rw [h1, pySub_ws_self jsonFenceLit ("``json".data) jsonFenceLit_eq (e :: w') hw]
      exact strip_pipe2_ws _ _ hw
    · rw [h1, List.dropWhile_eq_nil_iff.mpr hw, pySub_nil, List.append_nil]

/-- The closing fence of the wrapper is absorbed by the cleanup pipeline. -/
theorem strip_pipe_fence_suffix (U : List Char) :
    stripL (pySub fenceLit (pySub jsonFenceLit (U ++ '\n' :: fenceLit))) =
    stripL (pySub fenceLit (pySub jsonFenceLit U)) := by
  have hpreJ := isPrefixOf_app_head jsonFenceLit '\n' fenceLit (by decide)
  rcases pySub_append_gen jsonFenceLit jsonFenceLit_pos ('\n' :: fenceLit) hpreJ U with h1 | h1
  · rw [h1, show pySub jsonFenceLit ('\n' :: fenceLit) = '\n' :: fenceLit from by decide]
    have hpreF := isPrefixOf_app_head fenceLit '\n' fenceLit (by decide)
    rcases pySub_append_gen fenceLit fenceLit_pos ('\n' :: fenceLit) hpreF
      (pySub jsonFenceLit U) with h2 | h2
    · rw [h2, show pySub fenceLit ('\n' :: fenceLit) = ['\n'] from by decide]
      refine stripL_ws_right _ ['\n'] ?_
      intro c hc
      simp only [List.mem_singleton] at hc
      subst hc
      decide
    · rw [h2, show ('\n' :: fenceLit).dropWhile isPySpace = fenceLit from by decide,
        show pySub fenceLit fenceLit = ([] : List Char) from by decide, List.append_nil]
  · rw [h1, show ('\n' :: fenceLit).dropWhile isPySpace = fenceLit from by decide,
      show pySub jsonFenceLit fenceLit = fenceLit from by decide, pySub_fence_absorb]

theorem stripL_wrapFenceL (t : List Char) : stripL (wrapFenceL t) = wrapFenceL t := by
  have hshape : wrapFenceL t = btk :: ("``json".data ++ ('\n' :: (t ++ '\n' :: fenceLit))) := by
    rw [wrapFenceL, jsonFenceLit_eq]
    rfl
  have h1 : (wrapFenceL t).dropWhile isPySpace = wrapFenceL t := by
    rw [hshape, dropWhile_cons_false (by decide)]
  have hshape2 : wrapFenceL t = (jsonFenceLit ++ ('\n' :: t) ++ ['\n']) ++ fenceLit := by
    rw [wrapFenceL]
    simp
  have h2 : (wrapFenceL t).reverse.dropWhile isPySpace = (wrapFenceL t).reverse := by
    rw [hshape2, List.reverse_append,
      show fenceLit.reverse = btk :: [btk, btk] from by decide, List.cons_append,
      dropWhile_cons_false (by decide)]
  unfold stripL
  rw [h1, h2, List.reverse_reverse]

/-- Wrapping the response text in markdown code fences leaves the cleaned
text unchanged. -/
theorem cleaned_wrap (t : List Char) :
    stripL (pySub fenceLit (pySub jsonFenceLit (stripL (wrapFenceL t)))) =
    stripL (pySub fenceLit (pySub jsonFenceLit (stripL t))) := by
  rw [stripL_wrapFenceL]
  have hshape : wrapFenceL t = btk :: ("``json".data ++ ('\n' :: (t ++ '\n' :: fenceLit))) := by
    rw [wrapFenceL, jsonFenceLit_eq]
    rfl
  have hpre1 : jsonFenceLit.isPrefixOf
      (btk :: ("``json".data ++ ('\n' :: (t ++ '\n' :: fenceLit)))) = true := by
    have h := isPrefixOf_self_app jsonFenceLit ('\n' :: (t ++ '\n' :: fenceLit))
    rw [show jsonFenceLit ++ ('\n' :: (t ++ '\n' :: fenceLit))
        = btk :: ("``json".data ++ ('\n' :: (t ++ '\n' :: fenceLit))) from by
      rw [jsonFenceLit_eq]; rfl] at h
    exact h
  have hdropJ : List.drop jsonFenceLit.length
      (btk :: ("``json".data ++ ('\n' :: (t ++ '\n' :: fenceLit))))
      = '\n' :: (t ++ '\n' :: fenceLit) := by
    rw [show btk :: ("``json".data ++ ('\n' :: (t ++ '\n' :: fenceLit)))
        = jsonFenceLit ++ ('\n' :: (t ++ '\n' :: fenceLit)) from by
      rw [jsonFenceLit_eq]; rfl, List.drop_left]
  have step1 : pySub jsonFenceLit (wrapFenceL t) =
      pySub jsonFenceLit ((t ++ '\n' :: fenceLit).dropWhile isPySpace) := by
    rw [hshape, pySub_cons_pos jsonFenceLit jsonFenceLit_pos _ _ hpre1, hdropJ]
    congr 1
  rw [step1]
  have htw := List.takeWhile_append_dropWhile isPySpace t
  set w := t.takeWhile isPySpace with hwdef
  set U := t.dropWhile isPySpace with hUdef
  have hw : ∀ c ∈ w, isPySpace c = true := fun c hc => List.mem_takeWhile_imp hc
  have hsplitT : (t ++ '\n' :: fenceLit).dropWhile isPySpace =
      (U ++ '\n' :: fenceLit).dropWhile isPySpace := by
    conv_lhs => rw [← htw, List.append_assoc]
    rw [dropWhile_ws_app w _ hw]
  rw [hsplitT]
  rcases hU : U with _ | ⟨u, U'⟩
  · simp only [List.nil_append]
    rw [show ('\n' :: fenceLit).dropWhile isPySpace = fenceLit from by decide,
      show pySub jsonFenceLit fenceLit = fenceLit from by decide,
      show pySub fenceLit fenceLit = ([] : List Char) from by decide]
    have ht : stripL t = [] := by
      have hnil : t.dropWhile isPySpace = [] := by rw [← hUdef, hU]
      unfold stripL
      rw [hnil]
      rfl
    rw [ht, pySub_nil, pySub_nil]
  · have hu : isPySpace u = false :=
      dropWhile_head_false isPySpace t u U' (by rw [← hUdef, hU])
    rw [show ((u :: U') ++ '\n' :: fenceLit).dropWhile isPySpace
        = (u :: U') ++ '\n' :: fenceLit from by
      rw [List.cons_append]
      exact dropWhile_cons_false hu]
    rw [strip_pipe_fence_suffix (u :: U')]
    have hstript : stripL t = stripL (u :: U') := by
      rw [← htw, hU, stripL_ws_left w _ hw]
    obtain ⟨w2, hw2eq, hw2⟩ := stripL_decomp (u :: U')
    rw [dropWhile_cons_false hu] at hw2eq
    conv_lhs => rw [hw2eq]
    rw [strip_pipe_ws (stripL (u :: U')) w2 hw2, hstript]

theorem wrapFence_data (t : String) : (wrapFence t).data = wrapFenceL t.data := by
  unfold wrapFence wrapFenceL
  rw [String.data_append, String.data_append,
    show ("```json\n").data = jsonFenceLit ++ ['\n'] from by decide,
    show ("\n```").data = '\n' :: fenceLit from by decide]
  simp

/-! ## The claims -/

/-- Claim C1 counterexample: for a device of type `"light"` — not a key of
the limits table — `validate_device_value` accepts the value `"abc"` even
though it does not coerce to a floating-point number, returning `ok = true`
with no error, where the claim requires `ok = false`. -/
theorem c1_counterexample :
    pyFloat? (PyVal.vstr "abc") = none ∧
    validate_device_value ⟨1, 1, "Desk Lamp", "light", "off"⟩ (PyVal.vstr "abc") =
      (true, none) := by
  constructor
  · decide
  · decide

/-- Claim C1 as amended: for every device whose lower-cased device type is
not a key of the limits table, `validate_device_value` accepts every value
— numeric or not — returning `ok = true` with no error (the float coercion
is only attempted for device types present in the table). -/
theorem c1_unknown_type_unconstrained (d : Device) (v : PyVal)
    (h : limitsFor (strLower d.device_type) = none) :
    validate_device_value d v = (true, none) := by
  unfold validate_device_value
  rw [h]

/-- Witness for the amended C1: a concrete light device with the
non-coercible value `None`. -/
theorem c1_unknown_type_unconstrained_witness :
    limitsFor (strLower (Device.mk 1 1 "Desk Lamp" "light" "off").device_type) = none ∧
    validate_device_value ⟨1, 1, "Desk Lamp", "light", "off"⟩ PyVal.vnone = (true, none) :=
  ⟨by decide,
   c1_unknown_type_unconstrained ⟨1, 1, "Desk Lamp", "light", "off"⟩ PyVal.vnone (by decide)⟩

/-- Claim C3: for every device whose lower-cased type is in the limits
table, `validate_device_value` accepts every coercible value inside the
inclusive bounds (including the endpoints), rejects every coercible value
outside them with the exact message naming the device, its unit and the
bound pair, and rejects non-coercible values with
`"Invalid value: must be a number"`. -/
theorem c3_limits_enforced (d : Device) (v : PyVal) (lim : Limits)
    (hlim : limitsFor (strLower d.device_type) = some lim) :
    (∀ q : ℚ, pyFloat? v = some q →
      (((lim.min : ℚ) ≤ q ∧ q ≤ (lim.max : ℚ)) → validate_device_value d v = (true, none)) ∧
      ((q < (lim.min : ℚ) ∨ q > (lim.max : ℚ)) →
        validate_device_value d v = (false, some (rangeMsg d lim)))) ∧
    (pyFloat? v = none →
      validate_device_value d v = (false, some "Invalid value: must be a number")) := by
  constructor
  · intro q hq
    have hval : validate_device_value d v =
        if q < (lim.min : ℚ) ∨ q > (lim.max : ℚ) then (false, some (rangeMsg d lim))
        else (true, none) := by
      unfold validate_device_value
      rw [hlim, hq]
    constructor
    · intro hin
      rw [hval, if_neg]
      push_neg
      exact hin
    · intro hout
      rw [hval, if_pos hout]
  · intro hq
    unfold validate_device_value
    rw [hlim, hq]

/-- Witness for C3: a thermostat accepts the boundary values 16 and 32,
rejects 15 with the exact range message, and rejects `None`. -/
theorem c3_limits_enforced_witness :
    validate_device_value ⟨1, 1, "Thermo", "thermostat", "22"⟩ (PyVal.vint 16) = (true, none) ∧
    validate_device_value ⟨1, 1, "Thermo", "thermostat", "22"⟩ (PyVal.vint 32) = (true, none) ∧
    validate_device_value ⟨1, 1, "Thermo", "thermostat", "22"⟩ (PyVal.vint 15) =
      (false, some "Thermo °C must be between 16 and 32") ∧
    validate_device_value ⟨1, 1, "Thermo", "thermostat", "22"⟩ PyVal.vnone =
      (false, some "Invalid value: must be a number") := by
  have h16 := c3_limits_enforced ⟨1, 1, "Thermo", "thermostat", "22"⟩ (PyVal.vint 16)
    ⟨16, 32, "°C"⟩ (by decide)
  have h32 := c3_limits_enforced ⟨1, 1, "Thermo", "thermostat", "22"⟩ (PyVal.vint 32)
    ⟨16, 32, "°C"⟩ (by decide)
  have h15 := c3_limits_enforced ⟨1, 1, "Thermo", "thermostat", "22"⟩ (PyVal.vint 15)
    ⟨16, 32, "°C"⟩ (by decide)
  have hnone := c3_limits_enforced ⟨1, 1, "Thermo", "thermostat", "22"⟩ PyVal.vnone
    ⟨16, 32, "°C"⟩ (by decide)
  refine ⟨(h16.1 16 (by decide)).1 (by constructor <;> norm_num),
    (h32.1 32 (by decide)).1 (by constructor <;> norm_num),
    ?_, hnone.2 (by decide)⟩
  have h := (h15.1 15 (by decide)).2 (by left; norm_num)
  simpa [rangeMsg] using h

/-- Claim C7: any action other than the four implemented ones (including
`"set_brightness"`, which the interpreter's prompt offers), or a
value-requiring action with a `None` value, makes `apply_device_action`
fail with exactly `"Invalid action or missing value"` and leave the device
unmodified. -/
theorem c7_unknown_action_or_missing_value (d : Device) (a v : PyVal)
    (h : (∀ s ∈ applyActions, pyEqStr a s = false) ∨
      ((pyEqStr a "set_temperature" = true ∨ pyEqStr a "set_speed" = true) ∧ v = PyVal.vnone)) :
    apply_device_action d a v = (false, some "Invalid action or missing value", d) ∧
    "set_brightness" ∈ geminiPromptActions ∧ "set_brightness" ∉ applyActions := by
  refine ⟨?_, by decide, by decide⟩
  unfold apply_device_action
  rcases h with h | ⟨h1, h2⟩
  · have hon := h "turn_on" (by simp [applyActions])
    have hoff := h "turn_off" (by simp [applyActions])
    have htemp := h "set_temperature" (by simp [applyActions])
    have hspeed := h "set_speed" (by simp [applyActions])
    simp [hon, hoff, htemp, hspeed]
  · subst h2
    rcases h1 with h1 | h1
    · rcases a with _ | _ | _ | _ | s | _ | _ <;> simp [pyEqStr] at h1
      subst h1
      simp [pyEqStr, pyIsNone]
    · rcases a with _ | _ | _ | _ | s | _ | _ <;> simp [pyEqStr] at h1
      subst h1
      simp [pyEqStr, pyIsNone]

/-- Witness for C7: `set_brightness` with a value on a concrete device. -/
theorem c7_unknown_action_witness :
    apply_device_action ⟨1, 1, "Desk Lamp", "light", "off"⟩
      (PyVal.vstr "set_brightness") (PyVal.vint 5) =
      (false, some "Invalid action or missing value", ⟨1, 1, "Desk Lamp", "light", "off"⟩) ∧
    "set_brightness" ∈ geminiPromptActions := by
  have h := c7_unknown_action_or_missing_value ⟨1, 1, "Desk Lamp", "light", "off"⟩
    (PyVal.vstr "set_brightness") (PyVal.vint 5) (Or.inl (by decide))
  exact ⟨h.1, h.2.1⟩

/-- Claim C2: whenever `apply_device_action` fails, the resulting device is
the input device unchanged, `control` answers 400 carrying exactly the
reported error and appends no log entry, and when the failing action is a
value-requiring one with a present value the reported error is exactly the
validation error. -/
theorem c2_failed_apply_no_mutation_no_log (d : Device) (a v : PyVal) (logs : List Log)
    (h : (apply_device_action d a v).1 = false) :
    (apply_device_action d a v).2.2 = d ∧
    control d a v logs = ⟨400, (apply_device_action d a v).2.1, none, none, none, d, logs⟩ ∧
    ((pyEqStr a "set_temperature" = true ∨ pyEqStr a "set_speed" = true) →
      pyIsNone v = false →
      (validate_device_value d v).1 = false ∧
      (apply_device_action d a v).2.1 = (validate_device_value d v).2) := by
  have hdev : (apply_device_action d a v).2.2 = d := by
    unfold apply_device_action at h ⊢
    split_ifs at h ⊢ <;>
      first
        | rfl
        | (simp at h; done)
        | (by_cases hval : (validate_device_value d v).1 = false <;> simp [hval] at h ⊢)
  refine ⟨hdev, ?_, ?_⟩
  · unfold control
    simp [h, hdev]
  · intro ha hv
    have happly : apply_device_action d a v =
        if ¬ (validate_device_value d v).1 then
          ((false : Bool), (validate_device_value d v).2, d)
        else (true, none, { d with status := pyStrV v }) := by
      rcases ha with ha | ha
      · rcases a with _ | _ | _ | _ | s | _ | _ <;> simp [pyEqStr] at ha
        subst ha
        unfold apply_device_action
        simp [pyEqStr, hv]
      · rcases a with _ | _ | _ | _ | s | _ | _ <;> simp [pyEqStr] at ha
        subst ha
        unfold apply_device_action
        simp [pyEqStr, hv]
    by_cases hval : (validate_device_value d v).1 = false
    · refine ⟨hval, ?_⟩
      rw [happly]
      simp [hval]
    · exfalso
      have htrue : (validate_device_value d v).1 = true := by
        cases hb : (validate_device_value d v).1
        · exact absurd hb hval
        · rfl
      rw [happly] at h
      simp [htrue] at h

/-- Witness for C2: `set_temperature 10` on an AC (below the minimum 16)
fails, leaves the device unchanged, answers 400 with the validation error
and appends no log entry. -/
theorem c2_failed_apply_witness :
    (apply_device_action ⟨7, 3, "AC", "ac", "24"⟩ (PyVal.vstr "set_temperature")
      (PyVal.vint 10)).1 = false ∧
    (apply_device_action ⟨7, 3, "AC", "ac", "24"⟩ (PyVal.vstr "set_temperature")
      (PyVal.vint 10)).2.2 = ⟨7, 3, "AC", "ac", "24"⟩ ∧
    control ⟨7, 3, "AC", "ac", "24"⟩ (PyVal.vstr "set_temperature") (PyVal.vint 10) [] =
      ⟨400, some "AC °C must be between 16 and 30", none, none, none,
        ⟨7, 3, "AC", "ac", "24"⟩, []⟩ ∧
    (validate_device_value ⟨7, 3, "AC", "ac", "24"⟩ (PyVal.vint 10)).2 =
      some "AC °C must be between 16 and 30" := by
  have h := c2_failed_apply_no_mutation_no_log ⟨7, 3, "AC", "ac", "24"⟩
    (PyVal.vstr "set_temperature") (PyVal.vint 10) [] (by decide)
  refine ⟨by decide, h.1, ?_, by decide⟩
  rw [h.2.1]
  rfl

/-- Claim C6: on a device of type `"ac"` with status `"24"`, a control
request `set_temperature 20` succeeds with HTTP 200, the status becomes
`"20"`, and exactly one log entry `(set_temperature, 20)` for that device
is appended. -/
theorem c6_control_ac_set_temperature (d : Device) (logs : List Log)
    (htype : d.device_type = "ac") (_hstatus : d.status = "24") :
    control d (PyVal.vstr "set_temperature") (PyVal.vint 20) logs =
      ⟨200, none, some (d.name ++ " updated to 20"), some d.name, some "20",
        { d with status := "20" },
        logs ++ [⟨d.id, PyVal.vstr "set_temperature", PyVal.vint 20⟩]⟩ := by
  have hval : validate_device_value d (PyVal.vint 20) = (true, none) := by
    unfold validate_device_value
    rw [htype, show limitsFor (strLower "ac") = some ⟨16, 30, "°C"⟩ from by decide]
    rfl
  have happly : apply_device_action d (PyVal.vstr "set_temperature") (PyVal.vint 20) =
      (true, none, { d with status := "20" }) := by
    unfold apply_device_action
    simp [pyEqStr, pyIsNone, hval, show pyStrV (PyVal.vint 20) = "20" from by decide]
  unfold control
  rw [happly]
  simp [log_action, String.append_assoc]

/-- Witness for C6 at a concrete AC device. -/
theorem c6_control_ac_witness :
    control ⟨7, 3, "AC", "ac", "24"⟩ (PyVal.vstr "set_temperature") (PyVal.vint 20) [] =
      ⟨200, none, some "AC updated to 20", some "AC", some "20", ⟨7, 3, "AC", "ac", "20"⟩,
        [⟨7, PyVal.vstr "set_temperature", PyVal.vint 20⟩]⟩ := by
  have h := c6_control_ac_set_temperature ⟨7, 3, "AC", "ac", "24"⟩ [] rfl rfl
  simpa using h

/-- Claim C10: `apply_device_action` modifies at most the status field —
id, owning user, name and device type of the resulting device are those of
the input device on every path, success or failure. -/
theorem c10_apply_frame (d : Device) (a v : PyVal) :
    (apply_device_action d a v).2.2.id = d.id ∧
    (apply_device_action d a v).2.2.userId = d.userId ∧
    (apply_device_action d a v).2.2.name = d.name ∧
    (apply_device_action d a v).2.2.device_type = d.device_type := by
  unfold apply_device_action
  split_ifs <;>
    first
      | (simp; done)
      | (by_cases hval : (validate_device_value d v).1 = false <;> simp [hval])

/-- A successful interpretation result always carries both required keys
and is a truthy (non-empty) object. -/
theorem parseServiceResponse_some (t : String) (p : PyVal)
    (h : parseServiceResponse t = some p) :
    pyHasKey p "device_name" = true ∧ pyHasKey p "action" = true ∧ pyTruthy p = true := by
  unfold parseServiceResponse at h
  rcases hext : extractBraces (stripL (pySub fenceLit (pySub jsonFenceLit (stripL t.data))))
    with _ | b
  · rw [hext] at h
    simp at h
  · rw [hext] at h
    have h2 : (match jsonLoads b with
        | none => none
        | some parsed =>
          if pyHasKey parsed "device_name" = true ∧ pyHasKey parsed "action" = true then
            some parsed
          else none) = some p := h
    clear h
    rcases hload : jsonLoads b with _ | q
    · rw [hload] at h2
      simp at h2
    · rw [hload] at h2
      have h3 : (if pyHasKey q "device_name" = true ∧ pyHasKey q "action" = true then
          some q else none) = some p := h2
      clear h2
      split_ifs at h3 with hc
      · obtain ⟨hk1, hk2⟩ := hc
        have hqp : q = p := by injection h3
        subst hqp
        refine ⟨hk1, hk2, ?_⟩
        rcases q with _ | _ | _ | _ | _ | l | l <;> simp [pyHasKey] at hk1
        cases l with
        | nil => simp [pyHasKey] at hk1
        | cons x xs => simp [pyTruthy]

/-- Claim C4: when the extracted text of a service response fails to parse
as JSON, or parses to an object lacking `device_name` or `action`,
interpretation returns `null`, and the assistant dispatch answers 400
"Could not understand command" with every device store and the log store
untouched — the outcome is the same for every device store, so no device
is looked up or mutated. -/
theorem c4_unparseable_command (t : String) (cmd : PyVal) (logs : List Log)
    (hcmd : pyTruthy cmd = true)
    (h : ∀ b q,
      extractBraces (stripL (pySub fenceLit (pySub jsonFenceLit (stripL t.data)))) = some b →
      jsonLoads b = some q →
      pyHasKey q "device_name" = false ∨ pyHasKey q "action" = false) :
    parseServiceResponse t = none ∧
    ∀ devices : List Device,
      assistantPost cmd (some t) devices logs =
        ⟨400, some "Could not understand command. Please try again.", none, none, none,
          none, none, none, none, devices, logs⟩ := by
  have hparse : parseServiceResponse t = none := by
    unfold parseServiceResponse
    rcases hext : extractBraces (stripL (pySub fenceLit (pySub jsonFenceLit (stripL t.data))))
      with _ | b
    · rfl
    · show (match jsonLoads b with
        | none => none
        | some parsed =>
          if pyHasKey parsed "device_name" = true ∧ pyHasKey parsed "action" = true then
            some parsed
          else none) = none
      rcases hload : jsonLoads b with _ | q
      · rfl
      · rcases h b q hext hload with hk | hk <;> simp [hk]
  refine ⟨hparse, ?_⟩
  intro devices
  unfold assistantPost
  simp [hcmd, parse_command_with_gemini, hparse]

/-- Witness for C4: a response whose extracted object lacks `action`. -/
theorem c4_unparseable_command_witness :
    parseServiceResponse "\x7b\"device_name\": \"AC\"\x7d" = none ∧
    assistantPost (PyVal.vstr "turn on the AC")
      (some "\x7b\"device_name\": \"AC\"\x7d") [⟨1, 1, "AC", "ac", "24"⟩] [] =
      ⟨400, some "Could not understand command. Please try again.", none, none, none,
        none, none, none, none, [⟨1, 1, "AC", "ac", "24"⟩], []⟩ := by
  have h := c4_unparseable_command "\x7b\"device_name\": \"AC\"\x7d"
    (PyVal.vstr "turn on the AC") [] rfl ?_
  · exact ⟨h.1, h.2 [⟨1, 1, "AC", "ac", "24"⟩]⟩
  · intro b q hb hq
    have hb' : b = "\x7b\"device_name\": \"AC\"\x7d".data := by
      have : extractBraces (stripL (pySub fenceLit (pySub jsonFenceLit
          (stripL ("\x7b\"device_name\": \"AC\"\x7d" : String).data)))) =
          some ("\x7b\"device_name\": \"AC\"\x7d" : String).data := rfl
      rw [this] at hb
      injection hb with hb
      exact hb.symm
    subst hb'
    have hq' : q = PyVal.vobj [("device_name", PyVal.vstr "AC")] := by
      have : jsonLoads ("\x7b\"device_name\": \"AC\"\x7d" : String).data =
          some (PyVal.vobj [("device_name", PyVal.vstr "AC")]) := rfl
      rw [this] at hq
      injection hq with hq
      exact hq.symm
    subst hq'
    right
    rfl

/-- Claim C5: when the interpreted device name matches none of the
requesting user's devices under the case-insensitive exact match, the
assistant dispatch answers 404 with the not-found error and a suggestion,
mutates no device and creates no log entry. -/
theorem c5_device_not_found (cmd : PyVal) (t : String) (devices : List Device)
    (logs : List Log) (p : PyVal)
    (hcmd : pyTruthy cmd = true)
    (hparse : parseServiceResponse t = some p)
    (hmatch : ∀ d ∈ devices, iexactMatch (pyGetKey p "device_name") d.name = false) :
    assistantPost cmd (some t) devices logs =
      ⟨404,
        some ("Device " ++ String.mk [squote] ++ pyStrV (pyGetKey p "device_name")
          ++ String.mk [squote] ++ " not found"),
        some "Please check device name or add it first", none, none, none, none, none,
        some cmd, devices, logs⟩ := by
  obtain ⟨hk1, hk2, htr⟩ := parseServiceResponse_some t p hparse
  have hfind : devices.find? (fun d => iexactMatch (pyGetKey p "device_name") d.name) = none :=
    List.find?_eq_none.mpr (fun d hd => by simp [hmatch d hd])
  unfold assistantPost
  simp [hcmd, parse_command_with_gemini, hparse, hk1, hk2, htr, hfind]

/-- Witness for C5: "turn on the kitchen light" parsed against a user who
only owns a device named "Lamp". -/
theorem c5_device_not_found_witness :
    assistantPost (PyVal.vstr "turn on the kitchen light")
      (some "\x7b\"device_name\": \"kitchen light\", \"action\": \"turn_on\"\x7d")
      [⟨1, 1, "Lamp", "light", "off"⟩] [] =
      ⟨404, some "Device \x27kitchen light\x27 not found",
        some "Please check device name or add it first", none, none, none, none, none,
        some (PyVal.vstr "turn on the kitchen light"), [⟨1, 1, "Lamp", "light", "off"⟩], []⟩ := by
  have h := c5_device_not_found (PyVal.vstr "turn on the kitchen light")
    "\x7b\"device_name\": \"kitchen light\", \"action\": \"turn_on\"\x7d"
    [⟨1, 1, "Lamp", "light", "off"⟩] []
    (PyVal.vobj [("device_name", PyVal.vstr "kitchen light"), ("action", PyVal.vstr "turn_on")])
    rfl rfl (by decide)
  rw [h]
  rfl

/-- Claim C8: running the interpreter's cleanup and extraction on a
response wrapped in markdown code fences yields exactly the same structured
result as on the unwrapped response. -/
theorem c8_fence_wrapping_invariant (T : String) :
    parseServiceResponse (wrapFence T) = parseServiceResponse T := by
  unfold parseServiceResponse
  rw [wrapFence_data, cleaned_wrap]

/-- Claim C9: on the assistant endpoint's success path the reported
`"value"` field is null whenever the parsed value is falsy — in
particular, `set_speed 0` on a fan succeeds, sets the status to `"0"`, and
reports `value = null` rather than `0`. -/
theorem c9_falsy_value_reported_null :
    (∀ (cmd : PyVal) (resp : Option String) (devices : List Device) (logs : List Log)
        (p : PyVal),
      parse_command_with_gemini resp = some p →
      pyTruthy (pyGetKey p "value") = false →
      (assistantPost cmd resp devices logs).httpStatus = 200 →
      (assistantPost cmd resp devices logs).valueField = some PyVal.vnone) ∧
    (∀ (d : Device) (logs : List Log) (cmd : PyVal) (t : String),
      d.device_type = "fan" →
      pyTruthy cmd = true →
      parseServiceResponse t = some (PyVal.vobj
        [("device_name", PyVal.vstr d.name), ("action", PyVal.vstr "set_speed"),
         ("value", PyVal.vint 0)]) →
      assistantPost cmd (some t) [d] logs =
        ⟨200, none, none, some (d.name ++ " updated successfully"), some d.name,
          some (PyVal.vstr "set_speed"), some PyVal.vnone, some "0", some cmd,
          [{ d with status := "0" }], logs ++ [⟨d.id, PyVal.vstr "set_speed", PyVal.vint 0⟩]⟩) := by
  constructor
  · intro cmd resp devices logs p hp hfalsy hstatus
    unfold assistantPost at hstatus ⊢
    by_cases hcmd : pyTruthy cmd = true
    all_goals simp only [hcmd] at hstatus ⊢
    · rw [hp] at hstatus ⊢
      by_cases hkeys : pyTruthy p = true ∧ pyHasKey p "device_name" = true ∧
          pyHasKey p "action" = true
      all_goals simp only [hkeys] at hstatus ⊢
      · rcases hfind : devices.find?
            (fun d => iexactMatch (pyGetKey p "device_name") d.name) with _ | dev
        all_goals rw [hfind] at hstatus ⊢
        · simp at hstatus
        · by_cases hok : (apply_device_action dev (pyGetKey p "action")
              (pyGetKey p "value")).1 = true
          all_goals simp only [hok] at hstatus ⊢
          · simp [hfalsy]
          · simp at hstatus
      · simp at hstatus
    · simp at hstatus
  · intro d logs cmd t htype hcmd hparse
    have hval : validate_device_value d (PyVal.vint 0) = (true, none) := by
      unfold validate_device_value
      rw [htype, show limitsFor (strLower "fan") = some ⟨0, 5, "speed"⟩ from by decide]
      rfl
    have happly : apply_device_action d (PyVal.vstr "set_speed") (PyVal.vint 0) =
        (true, none, { d with status := "0" }) := by
      unfold apply_device_action
      simp [pyEqStr, pyIsNone, hval, show pyStrV (PyVal.vint 0) = "0" from by decide]
    have hmatch : iexactMatch (PyVal.vstr d.name) d.name = true := by
      simp [iexactMatch, pyStrV]
    unfold assistantPost
    simp only [hcmd]
    simp [parse_command_with_gemini, hparse, pyHasKey, pyGetKey, pyTruthy,
      hmatch, happly, updFirst, log_action]

/-- Witness for C9: a concrete fan at speed 3, commanded to speed 0. -/
theorem c9_falsy_value_witness :
    assistantPost (PyVal.vstr "set the fan speed to 0")
      (some "\x7b\"device_name\": \"Fan\", \"action\": \"set_speed\", \"value\": 0\x7d")
      [⟨2, 1, "Fan", "fan", "3"⟩] [] =
      ⟨200, none, none, some "Fan updated successfully", some "Fan",
        some (PyVal.vstr "set_speed"), some PyVal.vnone, some "0",
        some (PyVal.vstr "set the fan speed to 0"), [⟨2, 1, "Fan", "fan", "0"⟩],
        [⟨2, PyVal.vstr "set_speed", PyVal.vint 0⟩]⟩ := by
  have h := c9_falsy_value_reported_null.2 ⟨2, 1, "Fan", "fan", "3"⟩ []
    (PyVal.vstr "set the fan speed to 0")
    "\x7b\"device_name\": \"Fan\", \"action\": \"set_speed\", \"value\": 0\x7d"
    rfl rfl rfl
  rw [h]
  rfl

end SmartHome
